import Mathlib

set_option maxRecDepth 100000

/-!
Verification development for the Dreamer world-model components in
`model.py`: the recurrent state-space model (RSSM) with its prior,
posterior and combined forward step, the action model, and the
convolutional observation encoder.

Tensors are embedded as lists of real numbers (one row of a batch) or
as real-valued index functions (images); each PyTorch layer becomes an
explicit weight bundle together with its mathematical map.  Operations
that PyTorch rejects at runtime on a feature-width mismatch are
embedded as `Option`-valued functions returning `none` exactly when
the corresponding runtime check fails.  Randomness (`rsample`) is
embedded by passing the standard-normal noise explicitly.
-/

namespace Dreamer

/-- softplus from torch.nn.functional: log(1 + exp x). -/
noncomputable def softplus (x : ℝ) : ℝ := Real.log (1 + Real.exp x)

/-- logistic sigmoid, used inside the GRU cell gates. -/
noncomputable def sigmoid (x : ℝ) : ℝ := 1 / (1 + Real.exp (-x))

/-- F.elu with default alpha = 1. -/
noncomputable def elu (x : ℝ) : ℝ := if 0 < x then x else Real.exp x - 1

/-- F.relu. -/
noncomputable def relu (x : ℝ) : ℝ := max 0 x

/-- softplus is strictly positive everywhere. -/
theorem softplus_pos (x : ℝ) : 0 < softplus x := by
  have h : (1 : ℝ) < 1 + Real.exp x := by
    have := Real.exp_pos x
    linarith
  exact Real.log_pos h

/-- tanh is strictly below 1. -/
theorem tanh_lt_one (x : ℝ) : Real.tanh x < 1 := by
  rw [Real.tanh_eq_sinh_div_cosh]
  exact (div_lt_one (Real.cosh_pos x)).mpr (Real.sinh_lt_cosh x)

/-- tanh is strictly above -1. -/
theorem neg_one_lt_tanh (x : ℝ) : -1 < Real.tanh x := by
  have h := tanh_lt_one (-x)
  rw [Real.tanh_neg] at h
  linarith

/-- Weights of a torch.nn.Linear layer: a weight matrix and a bias
vector, both total as functions of the index. -/
structure Linear where
  weight : ℕ → ℕ → ℝ
  bias : ℕ → ℝ

/-- The mathematical map of a Linear layer with the given input and
output widths: y o = b o + sum_i W o i * x i. -/
noncomputable def linearOut (inF outF : ℕ) (L : Linear) (x : List ℝ) : List ℝ :=
  (List.range outF).map fun o =>
    L.bias o + ∑ i ∈ Finset.range inF, L.weight o i * x.getD i 0

/-- Applying a Linear layer to a row: PyTorch raises a shape error
unless the row has exactly the configured input width. -/
noncomputable def linearApply (inF outF : ℕ) (L : Linear) (x : List ℝ) : Option (List ℝ) :=
  if x.length = inF then some (linearOut inF outF L x) else none

@[simp] theorem linearOut_length (inF outF : ℕ) (L : Linear) (x : List ℝ) :
    (linearOut inF outF L x).length = outF := by
  simp [linearOut]

theorem linearApply_of_length {inF : ℕ} (outF : ℕ) (L : Linear) {x : List ℝ}
    (h : x.length = inF) : linearApply inF outF L x = some (linearOut inF outF L x) := by
  simp [linearApply, h]

theorem linearApply_of_ne {inF : ℕ} (outF : ℕ) (L : Linear) {x : List ℝ}
    (h : x.length ≠ inF) : linearApply inF outF L x = none := by
  simp [linearApply, h]

theorem linearApply_some_inv {inF outF : ℕ} {L : Linear} {x y : List ℝ}
    (h : linearApply inF outF L x = some y) :
    x.length = inF ∧ y = linearOut inF outF L x := by
  by_cases hl : x.length = inF
  · rw [linearApply_of_length outF L hl] at h
    exact ⟨hl, (Option.some.injEq _ _ ▸ h).symm⟩
  · rw [linearApply_of_ne outF L hl] at h
    exact absurd h (by simp)

/-- Weights of a torch.nn.GRUCell: input-to-hidden and
hidden-to-hidden matrices and biases for the reset gate (r), update
gate (z) and new gate (n). -/
structure GRUCellP where
  w_ir : ℕ → ℕ → ℝ
  w_iz : ℕ → ℕ → ℝ
  w_in : ℕ → ℕ → ℝ
  b_ir : ℕ → ℝ
  b_iz : ℕ → ℝ
  b_in : ℕ → ℝ
  w_hr : ℕ → ℕ → ℝ
  w_hz : ℕ → ℕ → ℝ
  w_hn : ℕ → ℕ → ℝ
  b_hr : ℕ → ℝ
  b_hz : ℕ → ℝ
  b_hn : ℕ → ℝ

/-- Row dot product of a weight row with a list of the given width. -/
noncomputable def dotRow (w : ℕ → ℝ) (x : List ℝ) (n : ℕ) : ℝ :=
  ∑ i ∈ Finset.range n, w i * x.getD i 0

/-- The mathematical single-step GRU update (PyTorch formulas):
r = sigmoid(W_ir x + b_ir + W_hr h + b_hr),
z = sigmoid(W_iz x + b_iz + W_hz h + b_hz),
n = tanh(W_in x + b_in + r * (W_hn h + b_hn)),
next h = (1 - z) * n + z * h, elementwise. -/
noncomputable def gruOut (inputSize hiddenSize : ℕ) (g : GRUCellP) (x h : List ℝ) : List ℝ :=
  (List.range hiddenSize).map fun j =>
    let r := sigmoid (dotRow (g.w_ir j) x inputSize + g.b_ir j +
      dotRow (g.w_hr j) h hiddenSize + g.b_hr j)
    let z := sigmoid (dotRow (g.w_iz j) x inputSize + g.b_iz j +
      dotRow (g.w_hz j) h hiddenSize + g.b_hz j)
    let n := Real.tanh (dotRow (g.w_in j) x inputSize + g.b_in j +
      r * (dotRow (g.w_hn j) h hiddenSize + g.b_hn j))
    (1 - z) * n + z * h.getD j 0

/-- Applying a GRUCell: PyTorch raises a shape error unless the input
row and the hidden row have the configured widths. -/
noncomputable def gruCell (inputSize hiddenSize : ℕ) (g : GRUCellP) (x h : List ℝ) :
    Option (List ℝ) :=
  if x.length = inputSize ∧ h.length = hiddenSize then
    some (gruOut inputSize hiddenSize g x h)
  else none

@[simp] theorem gruOut_length (inputSize hiddenSize : ℕ) (g : GRUCellP) (x h : List ℝ) :
    (gruOut inputSize hiddenSize g x h).length = hiddenSize := by
  simp [gruOut]

theorem gruCell_of_length {inputSize hiddenSize : ℕ} (g : GRUCellP) {x h : List ℝ}
    (hx : x.length = inputSize) (hh : h.length = hiddenSize) :
    gruCell inputSize hiddenSize g x h = some (gruOut inputSize hiddenSize g x h) := by
  simp [gruCell, hx, hh]

theorem gruCell_some_inv {inputSize hiddenSize : ℕ} {g : GRUCellP} {x h y : List ℝ}
    (hy : gruCell inputSize hiddenSize g x h = some y) :
    x.length = inputSize ∧ h.length = hiddenSize ∧ y = gruOut inputSize hiddenSize g x h := by
  by_cases hc : x.length = inputSize ∧ h.length = hiddenSize
  · rw [gruCell, if_pos hc] at hy
    exact ⟨hc.1, hc.2, (Option.some.injEq _ _ ▸ hy).symm⟩
  · rw [gruCell, if_neg hc] at hy
    exact absurd hy (by simp)

/-- A diagonal Gaussian, carried as its mean and stddev parameter
tensors (torch.distributions.Normal). -/
structure Gaussian where
  mean : List ℝ
  stddev : List ℝ

/-- The RecurrentStateSpaceModel of model.py: configuration widths,
the minimum-stddev floor, the activation function and the weights of
every layer created in its constructor. -/
structure RecurrentStateSpaceModel where
  state_dim : ℕ
  action_dim : ℕ
  rnn_hidden_dim : ℕ
  hidden_dim : ℕ := 200
  min_stddev : ℝ := 0.1
  act : ℝ → ℝ := elu
  fc_state_action : Linear
  fc_rnn_hidden : Linear
  fc_state_mean_prior : Linear
  fc_state_stddev_prior : Linear
  fc_rnn_hidden_embedded_obs : Linear
  fc_state_mean_posterior : Linear
  fc_state_stddev_posterior : Linear
  rnn : GRUCellP

namespace RecurrentStateSpaceModel

/-- RecurrentStateSpaceModel.prior, translated line by line from
model.py: cat state and action, linear + activation, GRU cell step,
linear + activation, then the mean head and the softplus-floored
stddev head; returns the Gaussian and the new deterministic state. -/
noncomputable def prior (m : RecurrentStateSpaceModel) (state action rnn_hidden : List ℝ) :
    Option (Gaussian × List ℝ) := do
  let pre ← linearApply (m.state_dim + m.action_dim) m.hidden_dim m.fc_state_action
    (state ++ action)
  let hidden := pre.map m.act
  let rnn_hidden2 ← gruCell m.hidden_dim m.rnn_hidden_dim m.rnn hidden rnn_hidden
  let pre2 ← linearApply m.rnn_hidden_dim m.hidden_dim m.fc_rnn_hidden rnn_hidden2
  let hidden2 := pre2.map m.act
  let mean ← linearApply m.hidden_dim m.state_dim m.fc_state_mean_prior hidden2
  let rawStd ← linearApply m.hidden_dim m.state_dim m.fc_state_stddev_prior hidden2
  return (⟨mean, rawStd.map fun x => softplus x + m.min_stddev⟩, rnn_hidden2)

/-- RecurrentStateSpaceModel.posterior, translated line by line from
model.py: cat rnn_hidden and embedded_obs, linear + activation, then
the mean head and the softplus-floored stddev head. -/
noncomputable def posterior (m : RecurrentStateSpaceModel) (rnn_hidden embedded_obs : List ℝ) :
    Option Gaussian := do
  let pre ← linearApply (m.rnn_hidden_dim + 1024) m.hidden_dim m.fc_rnn_hidden_embedded_obs
    (rnn_hidden ++ embedded_obs)
  let hidden := pre.map m.act
  let mean ← linearApply m.hidden_dim m.state_dim m.fc_state_mean_posterior hidden
  let rawStd ← linearApply m.hidden_dim m.state_dim m.fc_state_stddev_posterior hidden
  return ⟨mean, rawStd.map fun x => softplus x + m.min_stddev⟩

/-- RecurrentStateSpaceModel.forward from model.py: prior, then
posterior on the advanced deterministic state. -/
noncomputable def forward (m : RecurrentStateSpaceModel)
    (state action rnn_hidden embedded_next_obs : List ℝ) :
    Option (Gaussian × Gaussian × List ℝ) := do
  let pr ← m.prior state action rnn_hidden
  let next_state_posterior ← m.posterior pr.2 embedded_next_obs
  return (pr.1, next_state_posterior, pr.2)

/-- The prior pipeline exactly as the specification describes it, as a
total function of correctly sized inputs: state-action embedding,
gated recurrent update, projection, and the two parallel heads with
the stabilizing stddev transform. -/
noncomputable def priorSpec (m : RecurrentStateSpaceModel) (state action rnn_hidden : List ℝ) :
    Gaussian × List ℝ :=
  let hidden := (linearOut (m.state_dim + m.action_dim) m.hidden_dim m.fc_state_action
    (state ++ action)).map m.act
  let rnn_hidden2 := gruOut m.hidden_dim m.rnn_hidden_dim m.rnn hidden rnn_hidden
  let hidden2 := (linearOut m.rnn_hidden_dim m.hidden_dim m.fc_rnn_hidden rnn_hidden2).map m.act
  (⟨linearOut m.hidden_dim m.state_dim m.fc_state_mean_prior hidden2,
    (linearOut m.hidden_dim m.state_dim m.fc_state_stddev_prior hidden2).map
      fun x => softplus x + m.min_stddev⟩, rnn_hidden2)

/-- The posterior pipeline as a total function of correctly sized
inputs. -/
noncomputable def posteriorSpec (m : RecurrentStateSpaceModel) (rnn_hidden embedded_obs : List ℝ) :
    Gaussian :=
  let hidden := (linearOut (m.rnn_hidden_dim + 1024) m.hidden_dim m.fc_rnn_hidden_embedded_obs
    (rnn_hidden ++ embedded_obs)).map m.act
  ⟨linearOut m.hidden_dim m.state_dim m.fc_state_mean_posterior hidden,
    (linearOut m.hidden_dim m.state_dim m.fc_state_stddev_posterior hidden).map
      fun x => softplus x + m.min_stddev⟩

theorem prior_eq_spec (m : RecurrentStateSpaceModel) {state action rnn_hidden : List ℝ}
    (hsa : state.length + action.length = m.state_dim + m.action_dim)
    (hh : rnn_hidden.length = m.rnn_hidden_dim) :
    m.prior state action rnn_hidden = some (m.priorSpec state action rnn_hidden) := by
  simp [prior, priorSpec, linearApply, gruCell, hsa, hh]

theorem prior_eq_none (m : RecurrentStateSpaceModel) {state action rnn_hidden : List ℝ}
    (hne : ¬(state.length + action.length = m.state_dim + m.action_dim ∧
      rnn_hidden.length = m.rnn_hidden_dim)) :
    m.prior state action rnn_hidden = none := by
  by_cases hsa : state.length + action.length = m.state_dim + m.action_dim
  · have hh : rnn_hidden.length ≠ m.rnn_hidden_dim := fun h => hne ⟨hsa, h⟩
    simp [prior, linearApply, gruCell, hsa, hh]
  · simp [prior, linearApply, hsa]

theorem prior_some_inv {m : RecurrentStateSpaceModel} {state action rnn_hidden : List ℝ}
    {r : Gaussian × List ℝ} (hp : m.prior state action rnn_hidden = some r) :
    state.length + action.length = m.state_dim + m.action_dim ∧
      rnn_hidden.length = m.rnn_hidden_dim ∧ r = m.priorSpec state action rnn_hidden := by
  by_cases hc : state.length + action.length = m.state_dim + m.action_dim ∧
      rnn_hidden.length = m.rnn_hidden_dim
  · rw [prior_eq_spec m hc.1 hc.2] at hp
    exact ⟨hc.1, hc.2, (Option.some.injEq _ _ ▸ hp).symm⟩
  · rw [prior_eq_none m hc] at hp
    exact absurd hp (by simp)

theorem posterior_eq_spec (m : RecurrentStateSpaceModel) {rnn_hidden embedded_obs : List ℝ}
    (hhe : rnn_hidden.length + embedded_obs.length = m.rnn_hidden_dim + 1024) :
    m.posterior rnn_hidden embedded_obs = some (m.posteriorSpec rnn_hidden embedded_obs) := by
  simp [posterior, posteriorSpec, linearApply, hhe]

theorem posterior_eq_none (m : RecurrentStateSpaceModel) {rnn_hidden embedded_obs : List ℝ}
    (hne : rnn_hidden.length + embedded_obs.length ≠ m.rnn_hidden_dim + 1024) :
    m.posterior rnn_hidden embedded_obs = none := by
  simp [posterior, linearApply, hne]

theorem posterior_some_inv {m : RecurrentStateSpaceModel} {rnn_hidden embedded_obs : List ℝ}
    {d : Gaussian} (hp : m.posterior rnn_hidden embedded_obs = some d) :
    rnn_hidden.length + embedded_obs.length = m.rnn_hidden_dim + 1024 ∧
      d = m.posteriorSpec rnn_hidden embedded_obs := by
  by_cases hc : rnn_hidden.length + embedded_obs.length = m.rnn_hidden_dim + 1024
  · rw [posterior_eq_spec m hc] at hp
    exact ⟨hc, (Option.some.injEq _ _ ▸ hp).symm⟩
  · rw [posterior_eq_none m hc] at hp
    exact absurd hp (by simp)

/-- prior applied to a whole batch. Every tensor operation used by
prior (cat along dim 1, Linear, GRUCell, elementwise softplus and
activation) acts on each batch row independently, so the batched call
is the row-wise application; torch.cat along dim 1 (and the GRU cell)
require the batch sizes of all arguments to agree. -/
noncomputable def priorBatch (m : RecurrentStateSpaceModel) :
    List (List ℝ) → List (List ℝ) → List (List ℝ) → Option (List (Gaussian × List ℝ))
  | [], [], [] => some []
  | s :: ss, a :: aa, h :: hh => do
    let r ← m.prior s a h
    let rs ← m.priorBatch ss aa hh
    return r :: rs
  | _, _, _ => none

/-- posterior applied to a whole batch, row-wise for the same reason. -/
noncomputable def posteriorBatch (m : RecurrentStateSpaceModel) :
    List (List ℝ) → List (List ℝ) → Option (List Gaussian)
  | [], [] => some []
  | h :: hh, e :: ee => do
    let d ← m.posterior h e
    let ds ← m.posteriorBatch hh ee
    return d :: ds
  | _, _ => none

theorem priorBatch_rows (m : RecurrentStateSpaceModel) :
    ∀ (ss aa hh : List (List ℝ)) (out : List (Gaussian × List ℝ)),
    m.priorBatch ss aa hh = some out →
    out.length = ss.length ∧ ∀ i, i < ss.length →
      m.prior (ss.getD i []) (aa.getD i []) (hh.getD i []) =
        some (out.getD i (⟨[], []⟩, [])) := by
  intro ss
  induction ss with
  | nil =>
    intro aa hh out hp
    cases aa <;> cases hh <;> simp_all [priorBatch]
  | cons s ss ih =>
    intro aa hh out hp
    cases aa with
    | nil => cases hh <;> simp_all [priorBatch]
    | cons a aa =>
      cases hh with
      | nil => simp_all [priorBatch]
      | cons h hh =>
        simp only [priorBatch, Option.bind_eq_bind, Option.bind_eq_some] at hp
        obtain ⟨r, hr, rs, hrs, heq⟩ := hp
        obtain ⟨hlen, hrows⟩ := ih aa hh rs hrs
        simp only [Option.pure_def, Option.some.injEq] at heq
        subst heq
        refine ⟨by simp [hlen], ?_⟩
        intro i hi
        cases i with
        | zero => simpa using hr
        | succ n =>
          have hn : n < ss.length := Nat.lt_of_succ_lt_succ hi
          simpa using hrows n hn

theorem posteriorBatch_rows (m : RecurrentStateSpaceModel) :
    ∀ (hh ee : List (List ℝ)) (out : List Gaussian),
    m.posteriorBatch hh ee = some out →
    out.length = hh.length ∧ ∀ i, i < hh.length →
      m.posterior (hh.getD i []) (ee.getD i []) = some (out.getD i ⟨[], []⟩) := by
  intro hh
  induction hh with
  | nil =>
    intro ee out hp
    cases ee <;> simp_all [posteriorBatch]
  | cons h hh ih =>
    intro ee out hp
    cases ee with
    | nil => simp_all [posteriorBatch]
    | cons e ee =>
      simp only [posteriorBatch, Option.bind_eq_bind, Option.bind_eq_some] at hp
      obtain ⟨d, hd, ds, hds, heq⟩ := hp
      obtain ⟨hlen, hrows⟩ := ih ee ds hds
      simp only [Option.pure_def, Option.some.injEq] at heq
      subst heq
      refine ⟨by simp [hlen], ?_⟩
      intro i hi
      cases i with
      | zero => simpa using hd
      | succ n =>
        have hn : n < hh.length := Nat.lt_of_succ_lt_succ hi
        simpa using hrows n hn

end RecurrentStateSpaceModel

/-- A store of allocated tensors, modelling tensor memory: a Python
variable holds an index into the store, and every tensor operation in
model.py (cat, Linear, GRUCell, activation, softplus, the elementwise
arithmetic) allocates its result as a fresh entry appended at the end,
never writing to an existing entry. -/
abbrev Store : Type := List (List ℝ)

/-- Reading the tensor a handle refers to. -/
noncomputable def readT (σ : Store) (i : ℕ) : List ℝ := σ.getD i []

theorem readT_append_lt {σ τ : Store} {i : ℕ} (h : i < σ.length) :
    readT (σ ++ τ) i = readT σ i :=
  List.getD_append _ _ _ _ h

theorem readT_append_add (σ τ : Store) (n : ℕ) :
    readT (σ ++ τ) (σ.length + n) = readT τ n := by
  rw [readT, readT, List.getD_append_right _ _ _ _ (Nat.le_add_right _ _),
    Nat.add_sub_cancel_left]

namespace RecurrentStateSpaceModel

/-- prior acting on tensor handles: reads its three inputs from the
store, appends every tensor it creates (nine, in allocation order:
the cat result, the first linear output, its activation, the GRU
output, the second linear output, its activation, the mean, the raw
stddev, the floored stddev), and returns the grown store with the
handles of the distribution parameters and of the new deterministic
state. The store only ever grows: no existing entry is written. -/
noncomputable def priorAlloc (m : RecurrentStateSpaceModel) (σ : Store) (iS iA iH : ℕ) :
    Option (Store × (ℕ × ℕ) × ℕ) := do
  let state := readT σ iS
  let action := readT σ iA
  let rnn_hidden0 := readT σ iH
  let catSA := state ++ action
  let pre ← linearApply (m.state_dim + m.action_dim) m.hidden_dim m.fc_state_action catSA
  let hidden := pre.map m.act
  let rnn_hidden2 ← gruCell m.hidden_dim m.rnn_hidden_dim m.rnn hidden rnn_hidden0
  let pre2 ← linearApply m.rnn_hidden_dim m.hidden_dim m.fc_rnn_hidden rnn_hidden2
  let hidden2 := pre2.map m.act
  let mean ← linearApply m.hidden_dim m.state_dim m.fc_state_mean_prior hidden2
  let rawStd ← linearApply m.hidden_dim m.state_dim m.fc_state_stddev_prior hidden2
  let stddev := rawStd.map fun x => softplus x + m.min_stddev
  return (σ ++ [catSA, pre, hidden, rnn_hidden2, pre2, hidden2, mean, rawStd, stddev],
    (σ.length + 6, σ.length + 8), σ.length + 3)

/-- posterior acting on tensor handles: reads the deterministic state
and the observation embedding, appends the six tensors it creates (in
allocation order: the cat result, the linear output, its activation,
the mean, the raw stddev, the floored stddev), and returns the
handles of the distribution parameters; it returns no
deterministic-state handle at all. -/
noncomputable def posteriorAlloc (m : RecurrentStateSpaceModel) (σ : Store) (iH iE : ℕ) :
    Option (Store × ℕ × ℕ) := do
  let rnn_hidden0 := readT σ iH
  let embedded := readT σ iE
  let catHE := rnn_hidden0 ++ embedded
  let pre ← linearApply (m.rnn_hidden_dim + 1024) m.hidden_dim m.fc_rnn_hidden_embedded_obs catHE
  let hidden := pre.map m.act
  let mean ← linearApply m.hidden_dim m.state_dim m.fc_state_mean_posterior hidden
  let rawStd ← linearApply m.hidden_dim m.state_dim m.fc_state_stddev_posterior hidden
  let stddev := rawStd.map fun x => softplus x + m.min_stddev
  return (σ ++ [catHE, pre, hidden, mean, rawStd, stddev], σ.length + 3, σ.length + 5)

/-- forward acting on tensor handles: prior, then posterior on the
handle of the newly created deterministic state. -/
noncomputable def forwardAlloc (m : RecurrentStateSpaceModel) (σ : Store) (iS iA iH iE : ℕ) :
    Option (Store × (ℕ × ℕ) × (ℕ × ℕ) × ℕ) := do
  let pr ← m.priorAlloc σ iS iA iH
  let po ← m.posteriorAlloc pr.1 pr.2.2 iE
  return (po.1, pr.2.1, po.2, pr.2.2)

theorem priorAlloc_inv {m : RecurrentStateSpaceModel} {σ : Store} {iS iA iH : ℕ}
    {σ2 : Store} {i1 i2 ih2 : ℕ}
    (hp : m.priorAlloc σ iS iA iH = some (σ2, (i1, i2), ih2)) :
    (∀ i, i < σ.length → readT σ2 i = readT σ i) ∧
    σ.length ≤ σ2.length ∧ σ.length ≤ i1 ∧ σ.length ≤ i2 ∧ σ.length ≤ ih2 ∧
    m.prior (readT σ iS) (readT σ iA) (readT σ iH) =
      some (⟨readT σ2 i1, readT σ2 i2⟩, readT σ2 ih2) := by
  simp only [priorAlloc, Option.bind_eq_bind, Option.bind_eq_some, Option.pure_def,
    Option.some.injEq, Prod.mk.injEq] at hp
  obtain ⟨pre, hpre, rnn2, hgru, pre2, hpre2, mean, hmean, rawStd, hstd,
    hσ, ⟨hi1, hi2⟩, hih⟩ := hp
  obtain ⟨hc1, hpre_eq⟩ := linearApply_some_inv hpre
  obtain ⟨hc2, hc3, hgru_eq⟩ := gruCell_some_inv hgru
  obtain ⟨hc4, hpre2_eq⟩ := linearApply_some_inv hpre2
  obtain ⟨hc5, hmean_eq⟩ := linearApply_some_inv hmean
  obtain ⟨hc6, hstd_eq⟩ := linearApply_some_inv hstd
  subst hσ hi1 hi2 hih hpre_eq hgru_eq hpre2_eq hmean_eq hstd_eq
  have hsa : (readT σ iS).length + (readT σ iA).length = m.state_dim + m.action_dim := by
    simpa using hc1
  refine ⟨fun i hi => readT_append_lt hi, by simp, by simp, by simp, by simp, ?_⟩
  rw [prior_eq_spec m hsa hc3, readT_append_add, readT_append_add, readT_append_add]
  rfl

theorem posteriorAlloc_inv {m : RecurrentStateSpaceModel} {σ : Store} {iH iE : ℕ}
    {σ2 : Store} {i1 i2 : ℕ}
    (hp : m.posteriorAlloc σ iH iE = some (σ2, i1, i2)) :
    (∀ i, i < σ.length → readT σ2 i = readT σ i) ∧
    σ.length ≤ σ2.length ∧ σ.length ≤ i1 ∧ σ.length ≤ i2 ∧
    m.posterior (readT σ iH) (readT σ iE) = some ⟨readT σ2 i1, readT σ2 i2⟩ := by
  simp only [posteriorAlloc, Option.bind_eq_bind, Option.bind_eq_some, Option.pure_def,
    Option.some.injEq, Prod.mk.injEq] at hp
  obtain ⟨pre, hpre, mean, hmean, rawStd, hstd, hσ, hi1, hi2⟩ := hp
  obtain ⟨hc1, hpre_eq⟩ := linearApply_some_inv hpre
  obtain ⟨hc5, hmean_eq⟩ := linearApply_some_inv hmean
  obtain ⟨hc6, hstd_eq⟩ := linearApply_some_inv hstd
  subst hσ hi1 hi2 hpre_eq hmean_eq hstd_eq
  have hhe : (readT σ iH).length + (readT σ iE).length = m.rnn_hidden_dim + 1024 := by
    simpa using hc1
  refine ⟨fun i hi => readT_append_lt hi, by simp, by simp, by simp, ?_⟩
  rw [posterior_eq_spec m hhe, readT_append_add, readT_append_add]
  rfl

end RecurrentStateSpaceModel

/-- Reparameterized sampling from a diagonal Gaussian
(Normal(mean, stddev).rsample()): mean + stddev * noise elementwise,
with the standard-normal noise passed in explicitly. -/
noncomputable def rsample (mean stddev : List ℝ) (ε : ℕ → ℝ) : List ℝ :=
  (List.range mean.length).map fun i => mean.getD i 0 + stddev.getD i 0 * ε i

/-- The ActionModel of model.py: configuration, the stddev
hyperparameters, and the weights of its six linear layers. The
constructor stores log(exp(init_stddev) - 1) in self.init_stddev. -/
structure ActionModel where
  state_dim : ℕ
  rnn_hidden_dim : ℕ
  action_dim : ℕ
  hidden_dim : ℕ := 400
  act : ℝ → ℝ := elu
  min_stddev : ℝ := 1e-4
  init_stddev_raw : ℝ := 5.0
  fc1 : Linear
  fc2 : Linear
  fc3 : Linear
  fc4 : Linear
  fc_mean : Linear
  fc_stddev : Linear

namespace ActionModel

/-- self.init_stddev = np.log(np.exp(init_stddev) - 1). -/
noncomputable def init_stddev (m : ActionModel) : ℝ :=
  Real.log (Real.exp m.init_stddev_raw - 1)

/-- The four hidden layers of ActionModel.forward as a total function
of correctly sized inputs. -/
noncomputable def hidden4 (m : ActionModel) (state rnn_hidden : List ℝ) : List ℝ :=
  let h1 := (linearOut (m.state_dim + m.rnn_hidden_dim) m.hidden_dim m.fc1
    (state ++ rnn_hidden)).map m.act
  let h2 := (linearOut m.hidden_dim m.hidden_dim m.fc2 h1).map m.act
  let h3 := (linearOut m.hidden_dim m.hidden_dim m.fc3 h2).map m.act
  (linearOut m.hidden_dim m.hidden_dim m.fc4 h3).map m.act

/-- The action mean of ActionModel.forward: the fc_mean head divided
by 5.0, passed through tanh, and multiplied by 5.0 again. -/
noncomputable def meanOf (m : ActionModel) (state rnn_hidden : List ℝ) : List ℝ :=
  (linearOut m.hidden_dim m.action_dim m.fc_mean (m.hidden4 state rnn_hidden)).map
    fun x => 5.0 * Real.tanh (x / 5.0)

/-- The action stddev of ActionModel.forward:
softplus(raw + init_stddev) + min_stddev on the fc_stddev head. -/
noncomputable def stddevOf (m : ActionModel) (state rnn_hidden : List ℝ) : List ℝ :=
  (linearOut m.hidden_dim m.action_dim m.fc_stddev (m.hidden4 state rnn_hidden)).map
    fun x => softplus (x + m.init_stddev) + m.min_stddev

/-- ActionModel.forward, translated line by line from model.py: four
linear + activation layers, the squashed mean head, the floored
stddev head, then either tanh of a reparameterized sample (training)
or tanh of the mean (evaluation). -/
noncomputable def forward (m : ActionModel) (state rnn_hidden : List ℝ)
    (training : Bool) (ε : ℕ → ℝ) : Option (List ℝ) := do
  let pre1 ← linearApply (m.state_dim + m.rnn_hidden_dim) m.hidden_dim m.fc1
    (state ++ rnn_hidden)
  let h1 := pre1.map m.act
  let pre2 ← linearApply m.hidden_dim m.hidden_dim m.fc2 h1
  let h2 := pre2.map m.act
  let pre3 ← linearApply m.hidden_dim m.hidden_dim m.fc3 h2
  let h3 := pre3.map m.act
  let pre4 ← linearApply m.hidden_dim m.hidden_dim m.fc4 h3
  let h4 := pre4.map m.act
  let mean0 ← linearApply m.hidden_dim m.action_dim m.fc_mean h4
  let mean := mean0.map fun x => 5.0 * Real.tanh (x / 5.0)
  let rawStd ← linearApply m.hidden_dim m.action_dim m.fc_stddev h4
  let stddev := rawStd.map fun x => softplus (x + m.init_stddev) + m.min_stddev
  if training then
    return (rsample mean stddev ε).map Real.tanh
  else
    return mean.map Real.tanh

theorem forward_eq (m : ActionModel) {state rnn_hidden : List ℝ}
    (hlen : state.length + rnn_hidden.length = m.state_dim + m.rnn_hidden_dim)
    (training : Bool) (ε : ℕ → ℝ) :
    m.forward state rnn_hidden training ε = some (if training then
      (rsample (m.meanOf state rnn_hidden) (m.stddevOf state rnn_hidden) ε).map Real.tanh
    else (m.meanOf state rnn_hidden).map Real.tanh) := by
  cases training <;>
    simp [forward, meanOf, stddevOf, hidden4, linearApply, hlen]

theorem forward_eq_none (m : ActionModel) {state rnn_hidden : List ℝ}
    (hlen : state.length + rnn_hidden.length ≠ m.state_dim + m.rnn_hidden_dim)
    (training : Bool) (ε : ℕ → ℝ) :
    m.forward state rnn_hidden training ε = none := by
  simp [forward, linearApply, hlen]

theorem forward_some_inv {m : ActionModel} {state rnn_hidden : List ℝ}
    {training : Bool} {ε : ℕ → ℝ} {out : List ℝ}
    (hf : m.forward state rnn_hidden training ε = some out) :
    state.length + rnn_hidden.length = m.state_dim + m.rnn_hidden_dim ∧
    out = (if training then
      (rsample (m.meanOf state rnn_hidden) (m.stddevOf state rnn_hidden) ε).map Real.tanh
    else (m.meanOf state rnn_hidden).map Real.tanh) := by
  by_cases hlen : state.length + rnn_hidden.length = m.state_dim + m.rnn_hidden_dim
  · rw [forward_eq m hlen training ε] at hf
    exact ⟨hlen, (Option.some.injEq _ _ ▸ hf).symm⟩
  · rw [forward_eq_none m hlen training ε] at hf
    exact absurd hf (by simp)

end ActionModel

/-- Weights of a torch.nn.Conv2d layer, indexed as
(out channel, in channel, kernel row, kernel column). -/
structure Conv2dP where
  weight : ℕ → ℕ → ℕ → ℕ → ℝ
  bias : ℕ → ℝ

/-- Output spatial extent of a no-padding, no-dilation convolution:
floor((n - k) / s) + 1. -/
def convOutDim (n k s : ℕ) : ℕ := (n - k) / s + 1

/-- The value map of Conv2d (cross-correlation, no padding): output
channel c at position (i, j) sums weight * input over the input
channels and the k-by-k window starting at (s*i, s*j), plus bias. -/
noncomputable def conv2d (cin k s : ℕ) (C : Conv2dP) (x : ℕ → ℕ → ℕ → ℝ) :
    ℕ → ℕ → ℕ → ℝ :=
  fun c i j => C.bias c + ∑ ci ∈ Finset.range cin, ∑ ki ∈ Finset.range k,
    ∑ kj ∈ Finset.range k, C.weight c ci ki kj * x ci (s * i + ki) (s * j + kj)

/-- Row-major flattening of a (ch, hgt, wid) feature map into a
vector, as reshape(batch, -1) does to each batch row. -/
noncomputable def flattenImage (ch hgt wid : ℕ) (x : ℕ → ℕ → ℕ → ℝ) : List ℝ :=
  (List.range (ch * hgt * wid)).map fun n =>
    x (n / (hgt * wid)) (n % (hgt * wid) / wid) (n % wid)

@[simp] theorem flattenImage_length (ch hgt wid : ℕ) (x : ℕ → ℕ → ℕ → ℝ) :
    (flattenImage ch hgt wid x).length = ch * hgt * wid := by
  simp [flattenImage]

/-- The Encoder of model.py: four Conv2d layers with channels
3 → 32 → 64 → 128 → 256, all kernel 4, stride 2, no padding. -/
structure Encoder where
  cv1 : Conv2dP
  cv2 : Conv2dP
  cv3 : Conv2dP
  cv4 : Conv2dP

namespace Encoder

/-- Encoder.forward on one batch row of spatial extent hgt by wid:
relu after each convolution, then reshape(batch, -1), whose row
length is the channel count of cv4 times the remaining spatial
extent. -/
noncomputable def forwardRow (e : Encoder) (hgt wid : ℕ) (obs : ℕ → ℕ → ℕ → ℝ) : List ℝ :=
  let h1 := fun c i j => relu (conv2d 3 4 2 e.cv1 obs c i j)
  let h2 := fun c i j => relu (conv2d 32 4 2 e.cv2 h1 c i j)
  let h3 := fun c i j => relu (conv2d 64 4 2 e.cv3 h2 c i j)
  let h4 := fun c i j => relu (conv2d 128 4 2 e.cv4 h3 c i j)
  flattenImage 256
    (convOutDim (convOutDim (convOutDim (convOutDim hgt 4 2) 4 2) 4 2) 4 2)
    (convOutDim (convOutDim (convOutDim (convOutDim wid 4 2) 4 2) 4 2) 4 2) h4

/-- Encoder.forward on a batch: every convolution and relu acts on
each batch row independently. -/
noncomputable def forward (e : Encoder) (hgt wid : ℕ)
    (obsBatch : List (ℕ → ℕ → ℕ → ℝ)) : List (List ℝ) :=
  obsBatch.map (e.forwardRow hgt wid)

end Encoder

/-! Concrete instances with zero weights, used to exercise every
operation on explicit inputs. -/

noncomputable def zeroLinear : Linear := ⟨fun _ _ => 0, fun _ => 0⟩

noncomputable def zeroGRU : GRUCellP :=
  ⟨fun _ _ => 0, fun _ _ => 0, fun _ _ => 0, fun _ => 0, fun _ => 0, fun _ => 0,
   fun _ _ => 0, fun _ _ => 0, fun _ _ => 0, fun _ => 0, fun _ => 0, fun _ => 0⟩

noncomputable def zeroConv : Conv2dP := ⟨fun _ _ _ _ => 0, fun _ => 0⟩

/-- An RSSM with every width equal to 1 and zero weights. -/
noncomputable def testRSSM : RecurrentStateSpaceModel where
  state_dim := 1
  action_dim := 1
  rnn_hidden_dim := 1
  hidden_dim := 1
  min_stddev := 0.1
  act := elu
  fc_state_action := zeroLinear
  fc_rnn_hidden := zeroLinear
  fc_state_mean_prior := zeroLinear
  fc_state_stddev_prior := zeroLinear
  fc_rnn_hidden_embedded_obs := zeroLinear
  fc_state_mean_posterior := zeroLinear
  fc_state_stddev_posterior := zeroLinear
  rnn := zeroGRU

/-- An RSSM with stochastic width 2 and action width 2, used to
exhibit an undetected compensating width mismatch. -/
noncomputable def cexRSSM : RecurrentStateSpaceModel where
  state_dim := 2
  action_dim := 2
  rnn_hidden_dim := 1
  hidden_dim := 1
  min_stddev := 0.1
  act := elu
  fc_state_action := zeroLinear
  fc_rnn_hidden := zeroLinear
  fc_state_mean_prior := zeroLinear
  fc_state_stddev_prior := zeroLinear
  fc_rnn_hidden_embedded_obs := zeroLinear
  fc_state_mean_posterior := zeroLinear
  fc_state_stddev_posterior := zeroLinear
  rnn := zeroGRU

/-- An ActionModel with every width equal to 1 and zero weights. -/
noncomputable def testAction : ActionModel where
  state_dim := 1
  rnn_hidden_dim := 1
  action_dim := 1
  hidden_dim := 1
  act := elu
  min_stddev := 1e-4
  init_stddev_raw := 5.0
  fc1 := zeroLinear
  fc2 := zeroLinear
  fc3 := zeroLinear
  fc4 := zeroLinear
  fc_mean := zeroLinear
  fc_stddev := zeroLinear

noncomputable def testEncoder : Encoder := ⟨zeroConv, zeroConv, zeroConv, zeroConv⟩

/-- A 1024-wide zero observation embedding. -/
noncomputable def embedZeros : List ℝ := List.replicate 1024 0

/-- A store holding a width-1 state, action and deterministic state
and a zero embedding, at handles 0, 1, 2 and 3. -/
noncomputable def testStore : Store := [[0], [0], [0], embedZeros]

open RecurrentStateSpaceModel in
/-- Claim C1: for every valid input, the standard-deviation tensor of
the distribution returned by prior and by posterior is elementwise
strictly greater than the configured floor min_stddev, because it is
computed as softplus(raw) + min_stddev with softplus strictly
positive. -/
theorem prior_posterior_stddev_above_floor (m : RecurrentStateSpaceModel)
    (state action rnn_hidden embedded_obs : List ℝ)
    (d : Gaussian) (h2 : List ℝ) (d2 : Gaussian) :
    (m.prior state action rnn_hidden = some (d, h2) →
      ∀ y ∈ d.stddev, m.min_stddev < y) ∧
    (m.posterior rnn_hidden embedded_obs = some d2 →
      ∀ y ∈ d2.stddev, m.min_stddev < y) := by
  constructor
  · intro hp y hy
    obtain ⟨-, -, heq⟩ := prior_some_inv hp
    have hd : d = (m.priorSpec state action rnn_hidden).1 := congrArg Prod.fst heq
    rw [hd] at hy
    simp only [priorSpec, List.mem_map] at hy
    obtain ⟨x, -, hx⟩ := hy
    rw [← hx]
    exact lt_add_of_pos_left _ (softplus_pos x)
  · intro hp y hy
    obtain ⟨-, heq⟩ := posterior_some_inv hp
    rw [heq] at hy
    simp only [posteriorSpec, List.mem_map] at hy
    obtain ⟨x, -, hx⟩ := hy
    rw [← hx]
    exact lt_add_of_pos_left _ (softplus_pos x)

/-- Witness for claim C1 on the concrete width-1 model. -/
theorem prior_posterior_stddev_above_floor_witness :
    (∃ d h2, testRSSM.prior [0] [0] [0] = some (d, h2) ∧
      ∀ y ∈ d.stddev, testRSSM.min_stddev < y) ∧
    (∃ d2, testRSSM.posterior [0] embedZeros = some d2 ∧
      ∀ y ∈ d2.stddev, testRSSM.min_stddev < y) :=
  ⟨⟨_, _, rfl,
    (prior_posterior_stddev_above_floor testRSSM [0] [0] [0] [] _ _ ⟨[], []⟩).1 rfl⟩,
   ⟨_, rfl,
    (prior_posterior_stddev_above_floor testRSSM [0] [0] [0] embedZeros ⟨[], []⟩ [] _).2 rfl⟩⟩

open RecurrentStateSpaceModel in
/-- Claim C2: forward equals the composition of prior then posterior:
it returns exactly (d_prior, d_post, h2) where prior produced
(d_prior, h2) and the posterior is computed from the newly advanced
deterministic state h2, not from the input det_state. -/
theorem forward_is_prior_then_posterior (m : RecurrentStateSpaceModel)
    (state action rnn_hidden embedded_next_obs : List ℝ)
    (d1 : Gaussian) (h2 : List ℝ) (d2 : Gaussian)
    (hp : m.prior state action rnn_hidden = some (d1, h2))
    (hq : m.posterior h2 embedded_next_obs = some d2) :
    m.forward state action rnn_hidden embedded_next_obs = some (d1, d2, h2) := by
  simp [forward, hp, hq]

/-- Witness for claim C2 on the concrete width-1 model. -/
theorem forward_is_prior_then_posterior_witness :
    ∃ d1 h2 d2, testRSSM.prior [0] [0] [0] = some (d1, h2) ∧
      testRSSM.posterior h2 embedZeros = some d2 ∧
      testRSSM.forward [0] [0] [0] embedZeros = some (d1, d2, h2) :=
  ⟨_, _, _, rfl, rfl,
    forward_is_prior_then_posterior testRSSM [0] [0] [0] embedZeros _ _ _ rfl rfl⟩

open RecurrentStateSpaceModel in
/-- Claim C3: prior computes exactly the specified pipeline, spelled
out by priorSpec: hidden = act(fc_state_action(state ++ action)),
next deterministic state = GRUCell(hidden, det_state),
h2 = act(fc_rnn_hidden(next_det_state)), mean = fc_state_mean_prior(h2),
stddev = softplus(fc_state_stddev_prior(h2)) + min_stddev, and the
returned deterministic state is exactly the GRU cell output. -/
theorem prior_follows_spec_pipeline (m : RecurrentStateSpaceModel)
    (state action rnn_hidden : List ℝ)
    (hs : state.length = m.state_dim) (ha : action.length = m.action_dim)
    (hh : rnn_hidden.length = m.rnn_hidden_dim) :
    m.prior state action rnn_hidden = some (m.priorSpec state action rnn_hidden) :=
  prior_eq_spec m (by rw [hs, ha]) hh

/-- Witness for claim C3 on the concrete width-1 model. -/
theorem prior_follows_spec_pipeline_witness :
    testRSSM.prior [0] [0] [0] = some (testRSSM.priorSpec [0] [0] [0]) :=
  prior_follows_spec_pipeline testRSSM [0] [0] [0] rfl rfl rfl

/-- Claim C4: prior is deterministic: for a fixed parameter snapshot,
two calls with identical inputs return identical results; in this
embedding prior takes no noise argument at all (contrast rsample),
so no sampling or other randomness occurs inside it. -/
theorem prior_deterministic (m : RecurrentStateSpaceModel)
    (s1 a1 h1 s2 a2 h2 : List ℝ) (hs : s1 = s2) (ha : a1 = a2) (hh : h1 = h2) :
    m.prior s1 a1 h1 = m.prior s2 a2 h2 := by
  rw [hs, ha, hh]

/-- Witness for claim C4 on the concrete width-1 model. -/
theorem prior_deterministic_witness :
    testRSSM.prior [0] [0] [0] = testRSSM.prior [0] [0] [0] :=
  prior_deterministic testRSSM [0] [0] [0] [0] [0] [0] rfl rfl rfl

open RecurrentStateSpaceModel in
/-- Claim C5: no RSSM operation mutates its input tensors: in the
tensor-store model, prior, posterior and forward leave every
pre-existing store entry unchanged and return only freshly allocated
handles; the values of prior's and posterior's outputs agree with the
pure functions of the read input values, so posterior in particular
never updates the deterministic state it reads. -/
theorem rssm_ops_do_not_mutate_inputs (m : RecurrentStateSpaceModel)
    (σ : Store) (iS iA iH iE : ℕ) :
    (∀ σ2 i1 i2 ih2, m.priorAlloc σ iS iA iH = some (σ2, (i1, i2), ih2) →
      (∀ i, i < σ.length → readT σ2 i = readT σ i) ∧
      σ.length ≤ i1 ∧ σ.length ≤ i2 ∧ σ.length ≤ ih2 ∧
      m.prior (readT σ iS) (readT σ iA) (readT σ iH) =
        some (⟨readT σ2 i1, readT σ2 i2⟩, readT σ2 ih2)) ∧
    (∀ σ2 i1 i2, m.posteriorAlloc σ iH iE = some (σ2, i1, i2) →
      (∀ i, i < σ.length → readT σ2 i = readT σ i) ∧
      σ.length ≤ i1 ∧ σ.length ≤ i2 ∧
      m.posterior (readT σ iH) (readT σ iE) = some ⟨readT σ2 i1, readT σ2 i2⟩) ∧
    (∀ σ2 pids qids ih2, m.forwardAlloc σ iS iA iH iE = some (σ2, pids, qids, ih2) →
      ∀ i, i < σ.length → readT σ2 i = readT σ i) := by
  refine ⟨?_, ?_, ?_⟩
  · intro σ2 i1 i2 ih2 hp
    obtain ⟨hf, -, hle1, hle2, hle3, hc⟩ := priorAlloc_inv hp
    exact ⟨hf, hle1, hle2, hle3, hc⟩
  · intro σ2 i1 i2 hp
    obtain ⟨hf, -, hle1, hle2, hc⟩ := posteriorAlloc_inv hp
    exact ⟨hf, hle1, hle2, hc⟩
  · intro σ2 pids qids ih2 hp
    simp only [forwardAlloc, Option.bind_eq_bind, Option.bind_eq_some, Option.pure_def,
      Option.some.injEq, Prod.mk.injEq] at hp
    obtain ⟨⟨σa, ⟨pi1, pi2⟩, iha⟩, hpa, ⟨σb, qi1, qi2⟩, hpb, hσ, -, -, -⟩ := hp
    subst hσ
    obtain ⟨hfa, hlena, -, -, -, -⟩ := priorAlloc_inv hpa
    obtain ⟨hfb, -, -, -, -⟩ := posteriorAlloc_inv hpb
    intro i hi
    rw [hfb i (lt_of_lt_of_le hi hlena), hfa i hi]

/-- Witness for claim C5 on the concrete store testStore, exercising
priorAlloc, posteriorAlloc and forwardAlloc. -/
theorem rssm_ops_do_not_mutate_inputs_witness :
    (∃ σ2 i1 i2 ih2, testRSSM.priorAlloc testStore 0 1 2 = some (σ2, (i1, i2), ih2) ∧
      (∀ i, i < testStore.length → readT σ2 i = readT testStore i) ∧
      testRSSM.prior (readT testStore 0) (readT testStore 1) (readT testStore 2) =
        some (⟨readT σ2 i1, readT σ2 i2⟩, readT σ2 ih2)) ∧
    (∃ σ2 i1 i2, testRSSM.posteriorAlloc testStore 2 3 = some (σ2, i1, i2) ∧
      (∀ i, i < testStore.length → readT σ2 i = readT testStore i) ∧
      testRSSM.posterior (readT testStore 2) (readT testStore 3) =
        some ⟨readT σ2 i1, readT σ2 i2⟩) ∧
    ∃ σ2 pids qids ih2, testRSSM.forwardAlloc testStore 0 1 2 3 =
        some (σ2, pids, qids, ih2) ∧
      ∀ i, i < testStore.length → readT σ2 i = readT testStore i :=
  ⟨⟨_, _, _, _, rfl,
    ((rssm_ops_do_not_mutate_inputs testRSSM testStore 0 1 2 3).1 _ _ _ _ rfl).1,
    ((rssm_ops_do_not_mutate_inputs testRSSM testStore 0 1 2 3).1 _ _ _ _ rfl).2.2.2.2⟩,
   ⟨_, _, _, rfl,
    ((rssm_ops_do_not_mutate_inputs testRSSM testStore 0 1 2 3).2.1 _ _ _ rfl).1,
    ((rssm_ops_do_not_mutate_inputs testRSSM testStore 0 1 2 3).2.1 _ _ _ rfl).2.2.2⟩,
   ⟨_, _, _, _, rfl,
    (rssm_ops_do_not_mutate_inputs testRSSM testStore 0 1 2 3).2.2 _ _ _ _ rfl⟩⟩

open RecurrentStateSpaceModel in
/-- Counterexample to claim C6 as stated: with stochastic width 2 and
action width 2 configured, a state row of width 3 and an action row
of width 1 are both mismatched, yet prior returns a result instead of
raising a dimension error, because only the width of the
concatenation is checked by the first linear layer. -/
theorem prior_shape_mismatch_not_detected :
    [(0 : ℝ), 0, 0].length ≠ cexRSSM.state_dim ∧
    [(0 : ℝ)].length ≠ cexRSSM.action_dim ∧
    ∃ r, cexRSSM.prior [0, 0, 0] [0] [0] = some r :=
  ⟨by decide, by decide, _, rfl⟩

open RecurrentStateSpaceModel in
/-- Claim C6 (amended): with widths S, A, H configured, prior called
on rows of widths S, A, H returns mean and stddev of width S and a
deterministic state of width H; a mismatch in the concatenated
state-action width or in the det-state width yields a dimension
error (none); but a state-width mismatch exactly compensated by the
action width is not detected. -/
theorem prior_shape_contract (m : RecurrentStateSpaceModel)
    (state action rnn_hidden : List ℝ) :
    (state.length = m.state_dim → action.length = m.action_dim →
      rnn_hidden.length = m.rnn_hidden_dim →
      ∃ d h2, m.prior state action rnn_hidden = some (d, h2) ∧
        d.mean.length = m.state_dim ∧ d.stddev.length = m.state_dim ∧
        h2.length = m.rnn_hidden_dim) ∧
    (state.length + action.length ≠ m.state_dim + m.action_dim ∨
      rnn_hidden.length ≠ m.rnn_hidden_dim →
      m.prior state action rnn_hidden = none) := by
  constructor
  · intro hs ha hh
    refine ⟨_, _, prior_eq_spec m (by rw [hs, ha]) hh, ?_, ?_, ?_⟩
    · simp [priorSpec]
    · simp [priorSpec]
    · simp [priorSpec]
  · intro hor
    refine prior_eq_none m fun hc => ?_
    rcases hor with h | h
    · exact h hc.1
    · exact h hc.2

/-- Witness for claim C6 (amended): correct widths give correctly
shaped outputs, and a non-compensated width mismatch gives none. -/
theorem prior_shape_contract_witness :
    (∃ d h2, testRSSM.prior [0] [0] [0] = some (d, h2) ∧
      d.mean.length = testRSSM.state_dim ∧ d.stddev.length = testRSSM.state_dim ∧
      h2.length = testRSSM.rnn_hidden_dim) ∧
    testRSSM.prior [0, 0] [0] [0] = none :=
  ⟨(prior_shape_contract testRSSM [0] [0] [0]).1 rfl rfl rfl,
   (prior_shape_contract testRSSM [0, 0] [0] [0]).2 (Or.inl (by decide))⟩

open RecurrentStateSpaceModel in
/-- Claim C7: batch independence: a batched prior (and posterior)
call succeeds with one output row per input row, and each output row
is exactly what the operation returns on the corresponding input row
alone; no output row depends on any other input row. -/
theorem prior_posterior_batch_independent (m : RecurrentStateSpaceModel)
    (ss aa hh ee : List (List ℝ)) :
    (∀ out, m.priorBatch ss aa hh = some out →
      out.length = ss.length ∧ ∀ i, i < ss.length →
        m.prior (ss.getD i []) (aa.getD i []) (hh.getD i []) =
          some (out.getD i (⟨[], []⟩, []))) ∧
    (∀ out, m.posteriorBatch hh ee = some out →
      out.length = hh.length ∧ ∀ i, i < hh.length →
        m.posterior (hh.getD i []) (ee.getD i []) = some (out.getD i ⟨[], []⟩)) :=
  ⟨fun out hp => priorBatch_rows m ss aa hh out hp,
   fun out hp => posteriorBatch_rows m hh ee out hp⟩

/-- Witness for claim C7 on a concrete batch of two rows. -/
theorem prior_posterior_batch_independent_witness :
    (∃ out, testRSSM.priorBatch [[0], [0]] [[0], [0]] [[0], [0]] = some out ∧
      out.length = 2 ∧
      testRSSM.prior [0] [0] [0] = some (out.getD 0 (⟨[], []⟩, []))) ∧
    ∃ out, testRSSM.posteriorBatch [[0], [0]] [embedZeros, embedZeros] = some out ∧
      out.length = 2 ∧
      testRSSM.posterior [0] embedZeros = some (out.getD 1 ⟨[], []⟩) :=
  ⟨⟨_, rfl,
    ((prior_posterior_batch_independent testRSSM [[0], [0]] [[0], [0]] [[0], [0]]
      []).1 _ rfl).1,
    ((prior_posterior_batch_independent testRSSM [[0], [0]] [[0], [0]] [[0], [0]]
      []).1 _ rfl).2 0 (by decide)⟩,
   ⟨_, rfl,
    ((prior_posterior_batch_independent testRSSM [] [] [[0], [0]]
      [embedZeros, embedZeros]).2 _ rfl).1,
    ((prior_posterior_batch_independent testRSSM [] [] [[0], [0]]
      [embedZeros, embedZeros]).2 _ rfl).2 1 (by decide)⟩⟩

/-- Claim C8: ActionModel.forward with training = false is
deterministic and returns the squashed mean, whose pre-squash values
are bounded as 5.0 * tanh(raw / 5.0) with the fixed constant 5.0 (the
last conjunct is the definition of meanOf spelled out); with
training = true it returns tanh of a reparameterized sample from the
Gaussian with that same mean. -/
theorem actionModel_forward_modes (m : ActionModel) (state rnn_hidden : List ℝ)
    (hlen : state.length + rnn_hidden.length = m.state_dim + m.rnn_hidden_dim)
    (ε : ℕ → ℝ) :
    m.forward state rnn_hidden false ε = some ((m.meanOf state rnn_hidden).map Real.tanh) ∧
    m.forward state rnn_hidden true ε =
      some ((rsample (m.meanOf state rnn_hidden) (m.stddevOf state rnn_hidden) ε).map
        Real.tanh) ∧
    m.meanOf state rnn_hidden =
      (linearOut m.hidden_dim m.action_dim m.fc_mean (m.hidden4 state rnn_hidden)).map
        fun x => 5.0 * Real.tanh (x / 5.0) :=
  ⟨by simpa using ActionModel.forward_eq m hlen false ε,
   by simpa using ActionModel.forward_eq m hlen true ε, rfl⟩

/-- Witness for claim C8 on the concrete width-1 action model with
zero noise. -/
theorem actionModel_forward_modes_witness :
    testAction.forward [0] [0] false (fun _ => 0) =
      some ((testAction.meanOf [0] [0]).map Real.tanh) ∧
    testAction.forward [0] [0] true (fun _ => 0) =
      some ((rsample (testAction.meanOf [0] [0]) (testAction.stddevOf [0] [0])
        (fun _ => 0)).map Real.tanh) :=
  ⟨(actionModel_forward_modes testAction [0] [0] rfl (fun _ => 0)).1,
   (actionModel_forward_modes testAction [0] [0] rfl (fun _ => 0)).2.1⟩

/-- Claim C9: the observation encoder maps a batch of 3-channel 64x64
images to one 1024-element embedding row per batch entry: the four
stride-2 kernel-4 convolutions reduce the spatial extent
64 → 31 → 14 → 6 → 2 at 256 channels, and the flatten yields exactly
256 * 2 * 2 = 1024 elements per row. -/
theorem encoder_output_shape (e : Encoder) (obsBatch : List (ℕ → ℕ → ℕ → ℝ)) :
    (e.forward 64 64 obsBatch).length = obsBatch.length ∧
    convOutDim (convOutDim (convOutDim (convOutDim 64 4 2) 4 2) 4 2) 4 2 = 2 ∧
    ∀ row ∈ e.forward 64 64 obsBatch, row.length = 1024 := by
  refine ⟨by simp [Encoder.forward], by decide, ?_⟩
  intro row hrow
  simp only [Encoder.forward, List.mem_map] at hrow
  obtain ⟨obs, -, hobs⟩ := hrow
  rw [← hobs]
  simp [Encoder.forwardRow]
  decide

/-- Witness for claim C9 on a concrete singleton batch with the zero
image and zero convolution weights. -/
theorem encoder_output_shape_witness :
    ∃ row, row ∈ testEncoder.forward 64 64 [fun _ _ _ => 0] ∧ row.length = 1024 :=
  ⟨_, List.Mem.head _,
    (encoder_output_shape testEncoder [fun _ _ _ => 0]).2.2 _ (List.Mem.head _)⟩

/-- Claim C10: in both modes, every element of the action returned by
ActionModel.forward lies strictly inside (-1, 1), because a final
tanh is applied on both branches; and the action distribution stddev
is elementwise strictly greater than the min_stddev floor, via
softplus(raw + init_stddev) + min_stddev. -/
theorem action_in_open_interval_and_stddev_floor (m : ActionModel)
    (state rnn_hidden : List ℝ) (training : Bool) (ε : ℕ → ℝ) (out : List ℝ)
    (hf : m.forward state rnn_hidden training ε = some out) :
    (∀ y ∈ out, -1 < y ∧ y < 1) ∧
    ∀ y ∈ m.stddevOf state rnn_hidden, m.min_stddev < y := by
  constructor
  · obtain ⟨-, hout⟩ := ActionModel.forward_some_inv hf
    subst hout
    intro y hy
    have hy2 : ∃ x, y = Real.tanh x := by
      cases training <;> simp at hy <;> obtain ⟨x, -, hx⟩ := hy <;> exact ⟨x, hx.symm⟩
    obtain ⟨x, hx⟩ := hy2
    rw [hx]
    exact ⟨neg_one_lt_tanh x, tanh_lt_one x⟩
  · intro y hy
    simp only [ActionModel.stddevOf, List.mem_map] at hy
    obtain ⟨x, -, hx⟩ := hy
    rw [← hx]
    exact lt_add_of_pos_left _ (softplus_pos _)

/-- Witness for claim C10 on the concrete width-1 action model. -/
theorem action_in_open_interval_and_stddev_floor_witness :
    ∃ out, testAction.forward [0] [0] true (fun _ => 0) = some out ∧
      (∀ y ∈ out, -1 < y ∧ y < 1) ∧
      ∀ y ∈ testAction.stddevOf [0] [0], testAction.min_stddev < y :=
  ⟨_, rfl,
    (action_in_open_interval_and_stddev_floor testAction [0] [0] true (fun _ => 0)
      _ rfl).1,
    (action_in_open_interval_and_stddev_floor testAction [0] [0] true (fun _ => 0)
      _ rfl).2⟩

end Dreamer
